import Mathlib

/-!
Verification development for the joinly manager backend
(`backend_v2`): the utterance consolidation pipeline
(`internal/client/transcript.go`), the task supersession engine
(`internal/manager/..`), the agent lifecycle supervisor
(`internal/manager/agent_lifecycle.go`, `manager.go`, `websocket.go`)
and the event fan-out hub (`internal/websocket/hub.go`).

Conventions of the embedding:
- Go `float64` start/end offsets are modelled as exact rationals (`Rat`);
  the claims under study never depend on floating-point rounding.
- A Go `map[string]interface{}` transcript segment is modelled as a
  structure of `Option`-valued fields: each Go read is a type-asserted
  lookup (`v, ok := m[k].(T)`) that can fail, which `Option` mirrors.
- A Go `map[string]bool` used as a set is modelled as a duplicate-free
  `List String` of its keys; `map[K]V` association maps are modelled as
  association lists.
- Goroutine interleavings relevant to a claim are modelled by explicit
  move sequences over a step function.
-/

namespace Joinly

attribute [local semireducible] Rat.sub

/-- Whether a character list starts with the given pattern. -/
def listStartsWith : List Char → List Char → Bool
  | _, [] => true
  | [], _ :: _ => false
  | c :: cs, p :: ps => c = p && listStartsWith cs ps

/-- Whether the pattern occurs as a contiguous sublist. -/
def listContains : List Char → List Char → Bool
  | [], pat => pat.isEmpty
  | c :: cs, pat => listStartsWith (c :: cs) pat || listContains cs pat

/-- Go `strings.Contains(s, pat)`: `pat` occurs as a substring of `s`
(always true for the empty pattern). -/
def strContains (s pat : String) : Bool :=
  listContains s.data pat.data

/-- Go `strings.ToLower` (the texts the claims exercise are ASCII). -/
def lowerStr (s : String) : String :=
  ⟨s.data.map Char.toLower⟩

/-- Go `strings.TrimSpace`: strip leading and trailing whitespace. -/
def trimStr (s : String) : String :=
  ⟨((s.data.dropWhile Char.isWhitespace).reverse.dropWhile
      Char.isWhitespace).reverse⟩

/-- A transcript segment as delivered to `utteranceUpdate`
(`transcript.go`). In the source this is a `map[string]interface{}`;
each field is read with a type-asserted lookup that can fail, so every
field is `Option`-valued here. The Go key "end" is rendered `endOff`
(`end` is a Lean keyword). -/
structure Segment where
  speaker : Option String
  role : Option String
  text : Option String
  start : Option Rat
  endOff : Option Rat
deriving DecidableEq, Repr

/-- The agent configuration fields consumed by the consolidation
pipeline (`config.Name`, `config.NameTrigger` in `transcript.go`). -/
structure ClientConfig where
  name : String
  nameTrigger : Bool
deriving DecidableEq, Repr

/-- `JoinlyClient.isAgentSpeaker` (transcript.go lines 258-291): the
role field is checked first; then the literal speaker "Assistant" with
assistant-style phrasing; then a case-insensitive match of the speaker
against the configured agent name. -/
def isAgentSpeaker (cfg : ClientConfig) (seg : Segment) : Bool :=
  if seg.role = some "assistant" then
    true
  else
    match seg.speaker with
    | none => false
    | some speaker =>
      if speaker = "Assistant" &&
          (match seg.text with
           | some text =>
             strContains text "[Heard:" || strContains text "That\x27s great"
           | none => false) then
        true
      else if cfg.name ≠ "" && speaker ≠ "" && speaker ≠ "Participant" then
        lowerStr speaker = lowerStr cfg.name
      else
        false

/-- `JoinlyClient.nameInText` (transcript.go lines 294-301). -/
def nameInText (cfg : ClientConfig) (text : String) : Bool :=
  if cfg.name = "" then true
  else strContains (lowerStr text) (lowerStr cfg.name)

/-- The normalization `strings.ToLower(strings.TrimSpace(text))` shared
by `hasProcessedSegment` and `markSegmentProcessed`. -/
def normalizeText (text : String) : String :=
  lowerStr (trimStr text)

/-- `JoinlyClient.hasProcessedSegment` (transcript.go lines 304-307);
`processedSegments : map[string]bool` is modelled by its key list. -/
def hasProcessedSegment (ps : List String) (text : String) : Bool :=
  normalizeText text ∈ ps

/-- Key insertion into a Go `map[string]bool` modelled as a key list. -/
def mapInsert (ps : List String) (n : String) : List String :=
  if n ∈ ps then ps else ps ++ [n]

/-- `JoinlyClient.markSegmentProcessed` (transcript.go lines 310-316):
record the normalized text; if the history then holds more than 100
entries, reset it to just the new entry. -/
def markSegmentProcessed (ps : List String) (text : String) : List String :=
  let n := normalizeText text
  let ps2 := mapInsert ps n
  if ps2.length > 100 then [n] else ps2

/-- The comparator passed to `sort.Slice` in `compactSegments`
(transcript.go lines 177-184): strictly increasing start offsets, with
`false` whenever either start is missing. -/
def segLess (a b : Segment) : Bool :=
  match a.start, b.start with
  | some x, some y => decide (x < y)
  | _, _ => false

/-- Stable insertion into a list sorted by `le`. -/
def insertSorted (le : Segment → Segment → Bool) (s : Segment) :
    List Segment → List Segment
  | [] => [s]
  | t :: ts => if le s t then s :: t :: ts else t :: insertSorted le s ts

/-- The `sort.Slice(segments, less)` call of `compactSegments`: Go does
not promise a particular algorithm, only an ordering consistent with the
comparator; we model it by a stable insertion sort with respect to the
total preorder `le a b := not (segLess b a)`, one admissible outcome. -/
def sortSegments (segs : List Segment) : List Segment :=
  segs.foldr (insertSorted (fun a b => !segLess b a)) []

/-- The merge condition of `compactSegments` (transcript.go lines
211-214): same (defaulted) speaker, both end offsets and the next start
present, and a gap of at most 2.0 seconds. -/
def canMerge (current seg : Segment) : Bool :=
  current.speaker.getD "" = seg.speaker.getD "" &&
  current.endOff.isSome && seg.start.isSome && seg.endOff.isSome &&
  decide (seg.start.getD 0 - current.endOff.getD 0 ≤ 2)

/-- The merge action of `compactSegments` (transcript.go lines 216-236):
concatenate the texts (space-separated when both are nonempty), keep the
accumulated segment otherwise, and extend the end offset. -/
def mergeSegs (current seg : Segment) : Segment :=
  let currentText := current.text.getD ""
  let segmentText := seg.text.getD ""
  let newText :=
    if currentText ≠ "" && segmentText ≠ "" then
      some (currentText ++ " " ++ segmentText)
    else if segmentText ≠ "" then
      some segmentText
    else
      current.text
  { current with text := newText, endOff := seg.endOff }

/-- `JoinlyClient.compactSegments` (transcript.go lines 167-255): sort
by start offset, then fold left merging each next segment into the
accumulated one when `canMerge` holds, otherwise emitting the
accumulated segment and restarting from the next. -/
def compactSegments (segments : List Segment) : List Segment :=
  match segments with
  | [] => []
  | [s] => [s]
  | _ :: _ :: _ =>
    match sortSegments segments with
    | [] => []
    | first :: rest =>
      let acc := rest.foldl
        (fun (acc : List Segment × Segment) seg =>
          if canMerge acc.2 seg then (acc.1, mergeSegs acc.2 seg)
          else (acc.1 ++ [acc.2], seg))
        (([] : List Segment), first)
      acc.1 ++ [acc.2]

/-- `JoinlyClient.hashText` (transcript.go lines 319-323) returns the
hex SHA-256 digest of the trimmed text. No property under study ever
inspects digest values, only uses them as map keys, so the embedding
uses the trimmed text itself as the key. -/
def hashText (text : String) : String :=
  trimStr text

/-- The mutable fields of `JoinlyClient` (connection.go lines 33-75)
touched by the consolidation pipeline. `debounceTimer` holds the
`latestStart` value captured by the callback of the currently armed
timer, if any; `NewJoinlyClient` initializes both offsets to 0 and the
buffers to empty. -/
structure ClientState where
  isJoined : Bool
  lastUtteranceStart : Rat
  lastSegmentStart : Rat
  pendingSegments : List Segment
  processedSegments : List String
  utteranceStates : List (String × String)
  debounceTimer : Option Rat
deriving DecidableEq, Repr

/-- The loop-local accumulator of `utteranceUpdate` (transcript.go
lines 32-35): the two segment partitions, the running `latestStart`,
the `newParticipantAdded` flag, and the `processedSegments` set, which
IS updated inside the loop by `markSegmentProcessed`. -/
structure LoopAcc where
  participantSegments : List Segment
  assistantSegments : List Segment
  latestStart : Rat
  newParticipantAdded : Bool
  processed : List String
deriving DecidableEq, Repr

/-- One iteration of the segment loop of `utteranceUpdate`
(transcript.go lines 37-71): segments without a float start are
skipped; agent-voice segments go through the processed-text filter and
are marked immediately; participant segments go through the watermark
filter, which compares against the `lastSegmentStart` value fixed at
batch entry (it is only raised after the loop). -/
def segLoopStep (cfg : ClientConfig) (lastSegmentStart : Rat)
    (acc : LoopAcc) (seg : Segment) : LoopAcc :=
  match seg.start with
  | none => acc
  | some startVal =>
    let text := seg.text.getD ""
    if isAgentSpeaker cfg seg then
      if hasProcessedSegment acc.processed text then acc
      else { acc with
        assistantSegments := acc.assistantSegments ++ [seg],
        processed := markSegmentProcessed acc.processed text }
    else
      if startVal ≤ lastSegmentStart then acc
      else { acc with
        participantSegments := acc.participantSegments ++ [seg],
        newParticipantAdded := true,
        latestStart := if startVal > acc.latestStart then startVal
                       else acc.latestStart }

/-- `JoinlyClient.handleAssistantSegments` (transcript.go lines
117-124), spawned as a goroutine; the embedding runs it right after
the batch loop. Its only effect is re-marking texts the loop already
marked. -/
def handleAssistantSegments (ps : List String) (segs : List Segment) :
    List String :=
  segs.foldl (fun ps seg =>
    match seg.text with
    | some t => if trimStr t ≠ "" then markSegmentProcessed ps t else ps
    | none => ps) ps

/-- The outcome of one `utteranceUpdate` call: the new client state and
the two partitions the call computed (the participant partition is what
got appended to the pending buffer; the assistant partition is handed
to `handleAssistantSegments` only and never reaches utterance
consumers). -/
structure UpdateResult where
  state : ClientState
  participantSegments : List Segment
  assistantSegments : List Segment
deriving DecidableEq, Repr

/-- `JoinlyClient.utteranceUpdate` (transcript.go lines 13-114): ignore
updates when not joined or empty; run the partition loop; append new
participant segments to the pending buffer; raise the watermark to the
loop maximum; evaluate the name trigger over the pending buffer; and
(re)arm the debounce timer, whose callback captures the loop-local
`latestStart`. -/
def utteranceUpdate (cfg : ClientConfig) (s : ClientState)
    (segments : List Segment) : UpdateResult :=
  if !s.isJoined then ⟨s, [], []⟩
  else if segments.isEmpty then ⟨s, [], []⟩
  else
    let acc := segments.foldl (segLoopStep cfg s.lastSegmentStart)
      ⟨[], [], s.lastUtteranceStart, false, s.processedSegments⟩
    let processed2 :=
      if acc.assistantSegments.isEmpty then acc.processed
      else handleAssistantSegments acc.processed acc.assistantSegments
    if acc.participantSegments.isEmpty then
      ⟨{ s with processedSegments := processed2 },
        acc.participantSegments, acc.assistantSegments⟩
    else
      let pending2 := s.pendingSegments ++ acc.participantSegments
      let s2 : ClientState := { s with
        processedSegments := processed2,
        pendingSegments := pending2,
        lastSegmentStart :=
          if acc.newParticipantAdded ∧ acc.latestStart > s.lastSegmentStart
          then acc.latestStart else s.lastSegmentStart }
      let shouldTrigger := !cfg.nameTrigger ||
        pending2.any (fun seg => match seg.text with
          | some t => nameInText cfg t
          | none => false)
      if shouldTrigger then
        ⟨{ s2 with debounceTimer := some acc.latestStart },
          acc.participantSegments, acc.assistantSegments⟩
      else
        ⟨s2, acc.participantSegments, acc.assistantSegments⟩

/-- `JoinlyClient.processConsolidatedUtterance` (transcript.go lines
127-164), the debounce-timer callback: with a nonempty pending buffer,
record the captured `latestStart` as `lastUtteranceStart`, compact the
buffer, record the content hash with lifecycle state "received" if new,
clear the buffer, and hand the compacted segments to the utterance
callbacks (returned here as the second component; `none` means no
emission). -/
def processConsolidatedUtterance (s : ClientState) (latestStart : Rat) :
    ClientState × Option (List Segment) :=
  if s.pendingSegments.isEmpty then (s, none)
  else
    let compacted := compactSegments s.pendingSegments
    let combinedText :=
      match compacted with
      | [] => ""
      | seg :: _ => seg.text.getD ""
    let uttHash := hashText combinedText
    let utteranceStates2 :=
      if (s.utteranceStates.lookup uttHash).isSome then s.utteranceStates
      else s.utteranceStates ++ [(uttHash, "received")]
    ({ s with
        lastUtteranceStart := latestStart,
        utteranceStates := utteranceStates2,
        pendingSegments := [] }, some compacted)

/-- A segment that the batch loop appends to the pending buffer: it has
a start offset, is not agent voice, and lies strictly above the
watermark `w`. -/
def isNewParticipant (cfg : ClientConfig) (w : Rat) (seg : Segment) : Bool :=
  seg.start.isSome && !isAgentSpeaker cfg seg &&
  decide (w < seg.start.getD 0)

/-- The start offset of a participant (non-agent-voice) segment, used
to state the watermark characterization. -/
def participantStart (cfg : ClientConfig) (seg : Segment) : Option Rat :=
  if isAgentSpeaker cfg seg then none else seg.start

/-- Iterated `utteranceUpdate` over a sequence of segment batches. -/
def runBatches (cfg : ClientConfig) :
    ClientState → List (List Segment) → ClientState
  | s, [] => s
  | s, b :: bs => runBatches cfg (utteranceUpdate cfg s b).state bs

/-! ### Agent lifecycle supervisor (internal/manager) -/

/-- `models.AgentStatus` (models.go lines 8-17). -/
inductive AgentStatus
  | created | starting | running | stopping | stopped | error
deriving DecidableEq, Repr

/-- The `models.AgentConfig` fields the claims touch (models.go lines
65-77). -/
structure AgentConfig where
  meetingURL : String
  name : String
deriving DecidableEq, Repr

/-- `models.LogEntry` (models.go lines 108-113); the wall-clock
timestamp is irrelevant to every property under study and omitted. -/
structure LogEntry where
  level : String
  message : String
deriving DecidableEq, Repr

/-- `models.MeetingInfo` (models.go lines 115-119); creation timestamp
omitted. -/
structure MeetingInfo where
  url : String
  agentCount : Int
  agentIDs : List String
deriving DecidableEq, Repr

/-- `models.Agent` (models.go lines 95-106): id, configuration
snapshot, status, recent logs, optional error message; timestamps and
the goroutine id are wall-clock data and omitted. -/
structure Agent where
  id : String
  config : AgentConfig
  status : AgentStatus
  logs : List LogEntry
  errorMsg : Option String
deriving DecidableEq, Repr

/-- Lookup in a Go map modelled as an association list. -/
def lookupA {α : Type} : List (String × α) → String → Option α
  | [], _ => none
  | (k2, v) :: rest, k => if k2 = k then some v else lookupA rest k

/-- Map write `m[k] = v`. -/
def setA {α : Type} : List (String × α) → String → α → List (String × α)
  | [], k, v => [(k, v)]
  | (k2, v2) :: rest, k, v =>
    if k2 = k then (k2, v) :: rest else (k2, v2) :: setA rest k v

/-- Map delete `delete(m, k)`. -/
def removeA {α : Type} (m : List (String × α)) (k : String) :
    List (String × α) :=
  m.filter (fun p => p.1 ≠ k)

/-- The `AgentManager` fields the claims touch (manager.go lines
18-36), plus `events`: the status messages handed to
`wsHub.BroadcastToAgent` by `broadcastUpdate` (websocket.go lines
17-26), recorded in emission order as (agent id, status) pairs. -/
structure ManagerState where
  running : Bool
  maxAgents : Nat
  logBufferSize : Nat
  agents : List (String × Agent)
  meetings : List (String × MeetingInfo)
  logBuffers : List (String × List LogEntry)
  events : List (String × AgentStatus)
deriving DecidableEq, Repr

/-- `AgentManager.addLogEntryUnsafe` (manager.go lines 208-227):
append to the per-agent ring (capped at `logBufferSize`) and to the
agent record logs (capped at 100). A missing buffer behaves as the Go
nil slice. -/
def addLogEntryUnsafe (m : ManagerState) (agentID : String)
    (entry : LogEntry) : ManagerState :=
  let logs := ((lookupA m.logBuffers agentID).getD []) ++ [entry]
  let logs2 := if logs.length > m.logBufferSize
    then logs.drop (logs.length - m.logBufferSize) else logs
  let m2 := { m with logBuffers := setA m.logBuffers agentID logs2 }
  match lookupA m2.agents agentID with
  | none => m2
  | some agent =>
    let alogs := agent.logs ++ [entry]
    let alogs2 := if alogs.length > 100
      then alogs.drop (alogs.length - 100) else alogs
    { m2 with agents := setA m2.agents agentID { agent with logs := alogs2 } }

/-- `AgentManager.CreateAgent` (agent_lifecycle.go lines 17-64). The
uuid-derived agent id is passed in (`uuid.New` modelled as an input).
The returned record is the agent as constructed; in Go the returned
pointer aliases the map entry, an aliasing detail no claim observes. -/
def CreateAgent (m : ManagerState) (config : AgentConfig)
    (agentID : String) : ManagerState × Except String Agent :=
  if !m.running then
    (m, Except.error "agent manager not running")
  else if m.agents.length ≥ m.maxAgents then
    (m, Except.error ("maximum number of agents ("
      ++ toString m.maxAgents ++ ") reached"))
  else
    let agent : Agent := ⟨agentID, config, AgentStatus.created, [], none⟩
    let m1 := { m with
      agents := setA m.agents agentID agent,
      logBuffers := setA m.logBuffers agentID [] }
    let meetingURL := config.meetingURL
    let meeting := (lookupA m1.meetings meetingURL).getD ⟨meetingURL, 0, []⟩
    let meeting2 := { meeting with
      agentIDs := meeting.agentIDs ++ [agentID],
      agentCount := meeting.agentCount + 1 }
    let m2 := { m1 with meetings := setA m1.meetings meetingURL meeting2 }
    let m3 := addLogEntryUnsafe m2 agentID
      ⟨"info", "Agent created for meeting: " ++ meetingURL⟩
    (m3, Except.ok agent)

/-- `AgentManager.broadcastUpdate` for a status update (websocket.go
lines 17-26): hand one message to the hub. -/
def broadcastUpdate (m : ManagerState) (agentID : String)
    (status : AgentStatus) : ManagerState :=
  { m with events := m.events ++ [(agentID, status)] }

/-- `AgentManager.updateAgentStatusUnsafe` (websocket.go lines 68-76):
mutate the map entry and broadcast only when the stored status
differs. -/
def updateAgentStatusUnsafe (m : ManagerState) (agentID : String)
    (status : AgentStatus) : ManagerState :=
  match lookupA m.agents agentID with
  | none => m
  | some agent =>
    if agent.status ≠ status then
      broadcastUpdate
        { m with agents := (setA m.agents agentID { agent with status := status }) }
        agentID status
    else m

/-- A direct field assignment `agent.Status = x` on the map entry, as
performed inline by `StartAgent`, `stopAgent` and
`handleAgentErrorUnsafe` before they call the choke point. -/
def setAgentStatusDirect (m : ManagerState) (agentID : String)
    (status : AgentStatus) : ManagerState :=
  match lookupA m.agents agentID with
  | none => m
  | some agent =>
    { m with agents := (setA m.agents agentID { agent with status := status }) }

/-- The status-affecting operations of the successful `StartAgent` path
in program order (agent_lifecycle.go lines 128, 156, 199, 203): the
direct write precedes each choke-point call. -/
def startAgentStatusWrites (m : ManagerState) (agentID : String) :
    ManagerState :=
  let m1 := setAgentStatusDirect m agentID AgentStatus.starting
  let m2 := updateAgentStatusUnsafe m1 agentID AgentStatus.starting
  let m3 := setAgentStatusDirect m2 agentID AgentStatus.running
  updateAgentStatusUnsafe m3 agentID AgentStatus.running

/-- The status-affecting operations of `stopAgent` in program order
(agent_lifecycle.go lines 249, 252, 271, 272). -/
def stopAgentStatusWrites (m : ManagerState) (agentID : String) :
    ManagerState :=
  let m1 := setAgentStatusDirect m agentID AgentStatus.stopping
  let m2 := updateAgentStatusUnsafe m1 agentID AgentStatus.stopping
  let m3 := setAgentStatusDirect m2 agentID AgentStatus.stopped
  updateAgentStatusUnsafe m3 agentID AgentStatus.stopped

/-- `AgentManager.GetAgentLogs` (manager.go lines 159-192): default
200 lines when the request is not positive, cap at the buffer size,
clamp to the available entries, and return a copy of the most recent
entries (value semantics make the copy automatic here; the Go code
copies explicitly). -/
def GetAgentLogs (m : ManagerState) (agentID : String) (lines : Int) :
    Except String (List LogEntry) :=
  match lookupA m.logBuffers agentID with
  | none => Except.error "agent not found"
  | some logs =>
    let lines1 : Int := if lines ≤ 0 then 200 else lines
    let lines2 : Int := if lines1 > (m.logBufferSize : Int)
      then (m.logBufferSize : Int) else lines1
    let lines3 : Int := if lines2 ≥ (logs.length : Int)
      then (logs.length : Int) else lines2
    let start : Int := (logs.length : Int) - lines3
    let start2 : Int := if start < 0 then 0 else start
    Except.ok (logs.drop start2.toNat)

/-! ### Event fan-out hub (internal/websocket/hub.go) -/

/-- `models.WebSocketMessage`: only the routing fields matter to the
claims; payload and timestamp are opaque to the hub. -/
structure WSMessage where
  msgType : String
  agentID : String
deriving DecidableEq, Repr

/-- A hub `Client` (hub.go lines 27-33). `id` stands in for the Go
pointer identity; `send` is the buffered outbound channel, modelled by
its queued contents together with its capacity (256 at creation). -/
structure HClient where
  id : Nat
  agentID : String
  isSession : Bool
  send : List WSMessage
  cap : Nat
deriving DecidableEq, Repr

/-- The `Hub` registries and channel state (hub.go lines 15-24).
`clients` holds the ids of the `h.clients` set; `closedSends` the ids
whose send channel has been closed; `regOpen` whether the
register/unregister/broadcast channels are open (`Stop` closes them);
`registerQueue` the contents of the buffered register channel. -/
structure HubState where
  clients : List Nat
  clientsByAgent : List (String × List HClient)
  sessionClients : List HClient
  running : Bool
  regOpen : Bool
  registerQueue : List HClient
  closedSends : List Nat
deriving DecidableEq, Repr

/-- The non-blocking send `select { case client.send <- message: ... }`
succeeds exactly when the buffered channel has room. -/
def hasRoom (c : HClient) : Bool :=
  c.send.length < c.cap

def enqueueMsg (msg : WSMessage) (c : HClient) : HClient :=
  { c with send := c.send ++ [msg] }

/-- One registry pass of the broadcast case of `Hub.run` (hub.go lines
140-160): each subscriber with room receives the message; a full
subscriber is dropped. Returns the surviving registry and the dropped
clients. -/
def dispatchList (msg : WSMessage) : List HClient → List HClient × List HClient
  | [] => ([], [])
  | c :: rest =>
    let p := dispatchList msg rest
    if hasRoom c then (enqueueMsg msg c :: p.1, p.2)
    else (p.1, c :: p.2)

/-- The `broadcast` case of `Hub.run` (hub.go lines 133-161): deliver
to the target agent registry (when present) and to every session-wide
subscriber; dropped subscribers have their send channel closed and are
removed from `clients` and their registry. The loop body is a finite
fold, so delivery to the surviving subscribers always completes. -/
def hubBroadcast (h : HubState) (msg : WSMessage) : HubState :=
  let agentPass : Option (List HClient) × List HClient :=
    match lookupA h.clientsByAgent msg.agentID with
    | none => (none, [])
    | some l => let p := dispatchList msg l; (some p.1, p.2)
  let byAgent2 := match agentPass.1 with
    | none => h.clientsByAgent
    | some l2 => setA h.clientsByAgent msg.agentID l2
  let sessionPass := dispatchList msg h.sessionClients
  let droppedIds := (agentPass.2 ++ sessionPass.2).map HClient.id
  { h with
    clientsByAgent := byAgent2,
    sessionClients := sessionPass.1,
    clients := h.clients.filter (fun i => !droppedIds.contains i),
    closedSends := h.closedSends ++ droppedIds }

/-- `Hub.Stop` (hub.go lines 62-76): mark not running and close the
three feed channels. -/
def hubStop (h : HubState) : HubState :=
  if !h.running then h
  else { h with running := false, regOpen := false }

/-- The send `h.register <- client` performed by `ServeWs` (hub.go
line 220) and `ServeSessionWs` (line 253): enqueue on the buffered
register channel; after `Stop` has closed the channel, a Go send on a
closed channel panics, modelled as `none`. -/
def sendRegister (h : HubState) (c : HClient) : Option HubState :=
  if h.regOpen then
    some { h with registerQueue := h.registerQueue ++ [c] }
  else none

/-- The send `c.hub.unregister <- c` performed by `readPump` (hub.go
line 285), with the same closed-channel panic. -/
def sendUnregister (h : HubState) (_c : HClient) : Option HubState :=
  if h.regOpen then some h else none

/-- Pointer-set insertion (Go map keyed by client pointer). -/
def insertId (l : List Nat) (i : Nat) : List Nat :=
  if i ∈ l then l else l ++ [i]

def insertClient (l : List HClient) (c : HClient) : List HClient :=
  if l.any (fun c2 => c2.id = c.id) then l else l ++ [c]

def removeClient (l : List HClient) (c : HClient) : List HClient :=
  l.filter (fun c2 => c2.id ≠ c.id)

/-- The register case of `Hub.run` (hub.go lines 82-103). -/
def registerClient (h : HubState) (c : HClient) : HubState :=
  let h1 := { h with clients := insertId h.clients c.id }
  if c.isSession then
    { h1 with sessionClients := insertClient h1.sessionClients c }
  else
    let l := (lookupA h1.clientsByAgent c.agentID).getD []
    { h1 with clientsByAgent := (setA h1.clientsByAgent c.agentID (insertClient l c)) }

/-- The unregister case of `Hub.run` (hub.go lines 105-131): the send
channel is closed only when the client is still present in `clients`
(this guard is what makes a second unregister safe); the agent registry
entry is deleted when it becomes empty. -/
def unregisterClient (h : HubState) (c : HClient) : HubState :=
  let h1 := if c.id ∈ h.clients then
      { h with clients := h.clients.filter (fun i => i ≠ c.id),
               closedSends := insertId h.closedSends c.id }
    else h
  if c.isSession then
    { h1 with sessionClients := removeClient h1.sessionClients c }
  else
    match lookupA h1.clientsByAgent c.agentID with
    | none => h1
    | some l =>
      let l2 := removeClient l c
      if l2.isEmpty then
        { h1 with clientsByAgent := removeA h1.clientsByAgent c.agentID }
      else
        { h1 with clientsByAgent := setA h1.clientsByAgent c.agentID l2 }

/-! ### Task supersession engine (internal/manager, part of the
unnamed manager sources) -/

/-- Program points of `processUtteranceTask` at which the task checks
its cancellation token: entry (line 56), after the mode handling
(line 107), before the model call (line 123), after the model call
(line 133); then the speak step (line 146) and the terminal states.
The embedding follows the conversational path with a nonempty
transcript and a nonempty model reply. -/
inductive TaskPhase
  | atEntryCheck | atModeCheck | atPreModelCheck | atPostModelCheck
  | atSpeak | finished | cancelledReturn
deriving DecidableEq, Repr

structure TaskState where
  phase : TaskPhase
  cancelled : Bool
deriving DecidableEq, Repr

/-- One atomic scheduling step of the response task for utterance `u`:
at a checkpoint a cancelled token makes the task return (Go `select`
takes the closed `Done` channel over `default`); the step out of the
pre-model checkpoint performs the model call; the speak step records
the reply of utterance `u`. -/
def taskStep (u : Nat) (t : TaskState) (spoken : List Nat) :
    TaskState × List Nat :=
  match t.phase with
  | TaskPhase.atEntryCheck =>
    if t.cancelled then ({ t with phase := TaskPhase.cancelledReturn }, spoken)
    else ({ t with phase := TaskPhase.atModeCheck }, spoken)
  | TaskPhase.atModeCheck =>
    if t.cancelled then ({ t with phase := TaskPhase.cancelledReturn }, spoken)
    else ({ t with phase := TaskPhase.atPreModelCheck }, spoken)
  | TaskPhase.atPreModelCheck =>
    if t.cancelled then ({ t with phase := TaskPhase.cancelledReturn }, spoken)
    else ({ t with phase := TaskPhase.atPostModelCheck }, spoken)
  | TaskPhase.atPostModelCheck =>
    if t.cancelled then ({ t with phase := TaskPhase.cancelledReturn }, spoken)
    else ({ t with phase := TaskPhase.atSpeak }, spoken)
  | TaskPhase.atSpeak => ({ t with phase := TaskPhase.finished }, spoken ++ [u])
  | TaskPhase.finished => (t, spoken)
  | TaskPhase.cancelledReturn => (t, spoken)

/-- The two-utterance supersession system: the task processing
utterance 1, the task for utterance 2 (absent until `handleUtterance`
spawns it), and the replies spoken so far (by utterance number). -/
structure SupState where
  task1 : TaskState
  task2 : Option TaskState
  spoken : List Nat
deriving DecidableEq, Repr

/-- First half of `handleUtterance` for the new utterance (lines
19-29): cancel the token of the task currently installed in
`utteranceTasks`. -/
def cancelCurrent (s : SupState) : SupState :=
  { s with task1 := { s.task1 with cancelled := true } }

/-- Second half of `handleUtterance` (lines 31-50): install the new
token as the current one and spawn the new response task. -/
def installNewTask (s : SupState) : SupState :=
  { s with task2 := some ⟨TaskPhase.atEntryCheck, false⟩ }

inductive Move
  | step1 | sup | step2
deriving DecidableEq, Repr

/-- Interleaving semantics: a scheduler step of task 1, the
`handleUtterance` call for utterance 2 (which cancels the current
token before installing the new task), or a scheduler step of
task 2. -/
def applyMove (s : SupState) : Move → SupState
  | Move.step1 =>
    let p := taskStep 1 s.task1 s.spoken
    { s with task1 := p.1, spoken := p.2 }
  | Move.sup => installNewTask (cancelCurrent s)
  | Move.step2 =>
    match s.task2 with
    | none => s
    | some t =>
      let p := taskStep 2 t s.spoken
      { s with task2 := some p.1, spoken := p.2 }

def runMoves (s : SupState) (moves : List Move) : SupState :=
  moves.foldl applyMove s

/-- The system right after utterance 1 triggered its task. -/
def initSup : SupState :=
  ⟨⟨TaskPhase.atEntryCheck, false⟩, none, []⟩

/-- The task still has a cancellation checkpoint ahead of it (it is at
or before the post-model-call check — in particular while awaiting the
model call it is at `atPostModelCheck` next). -/
def atCheckpoint : TaskPhase → Bool
  | TaskPhase.atEntryCheck | TaskPhase.atModeCheck
  | TaskPhase.atPreModelCheck | TaskPhase.atPostModelCheck => true
  | _ => false

/-! Helper lemmas about `List.foldl max` used to characterize the
watermark update. -/

theorem base_le_foldl_max (l : List Rat) (b : Rat) :
    b ≤ l.foldl max b := by
  induction l generalizing b with
  | nil => exact le_refl _
  | cons x t ih => exact le_trans (le_max_left b x) (ih (max b x))

theorem mem_le_foldl_max (l : List Rat) (b x : Rat) (hx : x ∈ l) :
    x ≤ l.foldl max b := by
  induction l generalizing b with
  | nil => cases hx
  | cons y t ih =>
    rcases List.mem_cons.mp hx with h | h
    · subst h
      exact le_trans (le_max_right b x) (base_le_foldl_max t (max b x))
    · exact ih (max b y) h

theorem foldl_max_all_le (l : List Rat) (b : Rat)
    (h : ∀ x ∈ l, x ≤ b) : l.foldl max b = b := by
  induction l with
  | nil => rfl
  | cons y t ih =>
    have hy : max b y = b := max_eq_left (h y (List.mem_cons_self y t))
    simp only [List.foldl_cons, hy]
    exact ih (fun x hx => h x (List.mem_cons_of_mem y hx))

theorem foldl_max_filter_gt (l : List Rat) (w : Rat) :
    ∀ v : Rat, w ≤ v →
      l.foldl max v = (l.filter (fun x => decide (w < x))).foldl max v := by
  induction l with
  | nil => intro v _; rfl
  | cons y t ih =>
    intro v hv
    by_cases hy : w < y
    · simp only [List.filter_cons, decide_eq_true hy, List.foldl_cons]
      exact ih (max v y) (le_trans hv (le_max_left v y))
    · have hyv : max v y = v := max_eq_left (le_trans (not_lt.mp hy) hv)
      simp only [List.filter_cons, decide_eq_false hy, List.foldl_cons, hyv]
      exact ih v hv

theorem foldl_max_base_swap (l : List Rat) (b1 b2 : Rat)
    (h1 : ∀ x ∈ l, b1 ≤ x) (h2 : ∀ x ∈ l, b2 ≤ x) (hne : l ≠ []) :
    l.foldl max b1 = l.foldl max b2 := by
  cases l with
  | nil => exact absurd rfl hne
  | cons y t =>
    have e1 : max b1 y = y := max_eq_right (h1 y (List.mem_cons_self y t))
    have e2 : max b2 y = y := max_eq_right (h2 y (List.mem_cons_self y t))
    simp only [List.foldl_cons, e1, e2]

theorem ratMaxIf (m v : Rat) : (if m < v then v else m) = max m v := by
  rcases le_or_lt v m with h | h
  · simp [not_lt.mpr h, max_eq_left h]
  · simp [h, max_eq_right (le_of_lt h)]

/-- Characterization of the batch loop of `utteranceUpdate`: the
participant partition is exactly the filter of new participant
segments, `latestStart` is the running maximum of their start offsets
over the initial value, and `newParticipantAdded` records whether the
filter is nonempty. -/
theorem segLoop_characterization (cfg : ClientConfig) (w : Rat)
    (b : List Segment) : ∀ acc : LoopAcc,
    (b.foldl (segLoopStep cfg w) acc).participantSegments
      = acc.participantSegments ++ b.filter (isNewParticipant cfg w)
    ∧ (b.foldl (segLoopStep cfg w) acc).latestStart
      = ((b.filter (isNewParticipant cfg w)).map
          (fun seg => seg.start.getD 0)).foldl max acc.latestStart
    ∧ (b.foldl (segLoopStep cfg w) acc).newParticipantAdded
      = (acc.newParticipantAdded
          || !(b.filter (isNewParticipant cfg w)).isEmpty) := by
  induction b with
  | nil => intro acc; simp
  | cons seg rest ih =>
    intro acc
    cases hstart : seg.start with
    | none =>
      have hnp : isNewParticipant cfg w seg = false := by
        simp [isNewParticipant, hstart]
      simp only [List.foldl_cons, List.filter_cons, hnp]
      have hstep : segLoopStep cfg w acc seg = acc := by
        simp [segLoopStep, hstart]
      rw [hstep]
      exact ih acc
    | some v =>
      by_cases hagent : isAgentSpeaker cfg seg = true
      · have hnp : isNewParticipant cfg w seg = false := by
          simp [isNewParticipant, hagent]
        simp only [List.foldl_cons, List.filter_cons, hnp]
        by_cases hseen :
            hasProcessedSegment acc.processed (seg.text.getD "") = true
        · have hstep : segLoopStep cfg w acc seg = acc := by
            simp [segLoopStep, hstart, hagent, hseen]
          rw [hstep]
          exact ih acc
        · have hstep : segLoopStep cfg w acc seg
              = { acc with
                  assistantSegments := acc.assistantSegments ++ [seg],
                  processed :=
                    markSegmentProcessed acc.processed (seg.text.getD "") } := by
            simp [segLoopStep, hstart, hagent, hseen]
          rw [hstep]
          exact ih _
      · have hagent2 : isAgentSpeaker cfg seg = false :=
          Bool.not_eq_true _ ▸ (by simpa using hagent)
        by_cases hle : v ≤ w
        · have hnp : isNewParticipant cfg w seg = false := by
            simp [isNewParticipant, hstart, hagent2, not_lt.mpr hle]
          simp only [List.foldl_cons, List.filter_cons, hnp]
          have hstep : segLoopStep cfg w acc seg = acc := by
            simp [segLoopStep, hstart, hagent2, hle]
          rw [hstep]
          exact ih acc
        · have hgt : w < v := not_le.mp hle
          have hnp : isNewParticipant cfg w seg = true := by
            simp [isNewParticipant, hstart, hagent2, hgt]
          simp only [List.foldl_cons, List.filter_cons, hnp]
          have hstep : segLoopStep cfg w acc seg
              = { acc with
                  participantSegments := acc.participantSegments ++ [seg],
                  newParticipantAdded := true,
                  latestStart :=
                    if acc.latestStart < v then v else acc.latestStart } := by
            simp [segLoopStep, hstart, hagent2, hle, gt_iff_lt]
          rw [hstep]
          rcases ih ({ acc with
            participantSegments := acc.participantSegments ++ [seg],
            newParticipantAdded := true,
            latestStart :=
              if acc.latestStart < v then v else acc.latestStart }) with
            ⟨h1, h2, h3⟩
          refine ⟨?_, ?_, ?_⟩
          · simpa [List.append_assoc] using h1
          · rw [h2]
            simp [hstart, ratMaxIf]
          · simp [h3]

/-- `segLoop_characterization` specialized to the initial accumulator
built by `utteranceUpdate`. -/
theorem segLoop_init (cfg : ClientConfig) (w lus : Rat) (ps : List String)
    (b : List Segment) :
    (b.foldl (segLoopStep cfg w) ⟨[], [], lus, false, ps⟩).participantSegments
      = b.filter (isNewParticipant cfg w)
    ∧ (b.foldl (segLoopStep cfg w) ⟨[], [], lus, false, ps⟩).latestStart
      = ((b.filter (isNewParticipant cfg w)).map
          (fun seg => seg.start.getD 0)).foldl max lus
    ∧ (b.foldl (segLoopStep cfg w) ⟨[], [], lus, false, ps⟩).newParticipantAdded
      = !(b.filter (isNewParticipant cfg w)).isEmpty := by
  rcases segLoop_characterization cfg w b ⟨[], [], lus, false, ps⟩ with
    ⟨h1, h2, h3⟩
  exact ⟨by simpa using h1, by simpa using h2, by simpa using h3⟩

/-- `utteranceUpdate` never changes `isJoined`, `lastUtteranceStart`,
or (participant-free branches aside) the fields the watermark argument
depends on. -/
theorem utteranceUpdate_fixed_fields (cfg : ClientConfig)
    (s : ClientState) (b : List Segment) :
    (utteranceUpdate cfg s b).state.isJoined = s.isJoined
    ∧ (utteranceUpdate cfg s b).state.lastUtteranceStart
        = s.lastUtteranceStart := by
  unfold utteranceUpdate
  split
  · exact ⟨rfl, rfl⟩
  · split
    · exact ⟨rfl, rfl⟩
    · dsimp only
      split
      · exact ⟨rfl, rfl⟩
      · split
        · exact ⟨rfl, rfl⟩
        · exact ⟨rfl, rfl⟩

/-- The pending-buffer equation: one `utteranceUpdate` call appends
exactly the new participant segments (those with a start offset,
classified participant, strictly above the watermark), in order. -/
theorem utteranceUpdate_pending (cfg : ClientConfig) (s : ClientState)
    (b : List Segment) (hj : s.isJoined = true) :
    (utteranceUpdate cfg s b).state.pendingSegments
      = s.pendingSegments
        ++ b.filter (isNewParticipant cfg s.lastSegmentStart) := by
  rcases segLoop_init cfg s.lastSegmentStart s.lastUtteranceStart
    s.processedSegments b with ⟨h1, _, _⟩
  unfold utteranceUpdate
  simp only [hj, Bool.not_true, Bool.false_eq_true, if_false]
  split
  · rename_i hb
    have hbnil : b = [] := List.isEmpty_iff.mp hb
    subst hbnil
    simp
  · split
    · rename_i hpart
      have hfil : b.filter (isNewParticipant cfg s.lastSegmentStart) = [] := by
        rw [← h1]
        exact List.isEmpty_iff.mp hpart
      simp [hfil]
    · split
      · simp [h1]
      · simp [h1]

/-- The watermark never decreases in one `utteranceUpdate` call. -/
theorem utteranceUpdate_watermark_mono (cfg : ClientConfig)
    (s : ClientState) (b : List Segment) :
    s.lastSegmentStart ≤ (utteranceUpdate cfg s b).state.lastSegmentStart := by
  unfold utteranceUpdate
  split
  · exact le_refl _
  · split
    · exact le_refl _
    · dsimp only
      split
      · exact le_refl _
      · split
        · dsimp only
          split
          · rename_i h
            exact le_of_lt h.2
          · exact le_refl _
        · dsimp only
          split
          · rename_i h
            exact le_of_lt h.2
          · exact le_refl _

/-- The start offsets of the new participant segments are exactly the
participant start offsets strictly above the watermark. -/
theorem filter_starts_eq (cfg : ClientConfig) (w : Rat)
    (b : List Segment) :
    (b.filter (isNewParticipant cfg w)).map (fun seg => seg.start.getD 0)
      = (b.filterMap (participantStart cfg)).filter
          (fun x => decide (w < x)) := by
  induction b with
  | nil => rfl
  | cons seg rest ih =>
    by_cases hagent : isAgentSpeaker cfg seg = true
    · have hnp : isNewParticipant cfg w seg = false := by
        simp [isNewParticipant, hagent]
      have hps : participantStart cfg seg = none := by
        simp [participantStart, hagent]
      simp [List.filter_cons, List.filterMap_cons, hnp, hps, ih]
    · have hagent2 : isAgentSpeaker cfg seg = false := by
        simpa using hagent
      cases hstart : seg.start with
      | none =>
        have hnp : isNewParticipant cfg w seg = false := by
          simp [isNewParticipant, hstart]
        have hps : participantStart cfg seg = none := by
          simp [participantStart, hagent2, hstart]
        simp [List.filter_cons, List.filterMap_cons, hnp, hps, ih]
      | some v =>
        have hps : participantStart cfg seg = some v := by
          simp [participantStart, hagent2, hstart]
        by_cases hgt : w < v
        · have hnp : isNewParticipant cfg w seg = true := by
            simp [isNewParticipant, hstart, hagent2, hgt]
          simp [List.filter_cons, List.filterMap_cons, hnp, hps, hstart,
            ih, hgt]
        · have hnp : isNewParticipant cfg w seg = false := by
            simp [isNewParticipant, hstart, hagent2, hgt]
          simp [List.filter_cons, List.filterMap_cons, hnp, hps, ih, hgt]

/-- The watermark after one `utteranceUpdate` equals the maximum of the
old watermark and all participant start offsets of the batch; this
needs the client invariant `lastUtteranceStart ≤ lastSegmentStart`
(true initially, both are 0, and preserved by every transition). -/
theorem utteranceUpdate_watermark (cfg : ClientConfig) (s : ClientState)
    (b : List Segment) (hj : s.isJoined = true)
    (hinv : s.lastUtteranceStart ≤ s.lastSegmentStart) :
    (utteranceUpdate cfg s b).state.lastSegmentStart
      = (b.filterMap (participantStart cfg)).foldl max s.lastSegmentStart := by
  rcases segLoop_init cfg s.lastSegmentStart s.lastUtteranceStart
    s.processedSegments b with ⟨h1, h2, h3⟩
  have hfilter := filter_starts_eq cfg s.lastSegmentStart b
  rw [hfilter] at h2
  have hLmem : ∀ x ∈ (b.filterMap (participantStart cfg)).filter
      (fun x => decide (s.lastSegmentStart < x)),
      s.lastSegmentStart < x := by
    intro x hx
    simpa using List.of_mem_filter hx
  have hRHS : (b.filterMap (participantStart cfg)).foldl max
        s.lastSegmentStart
      = ((b.filterMap (participantStart cfg)).filter
          (fun x => decide (s.lastSegmentStart < x))).foldl max
          s.lastSegmentStart :=
    foldl_max_filter_gt _ _ _ (le_refl _)
  unfold utteranceUpdate
  simp only [hj, Bool.not_true, Bool.false_eq_true, if_false]
  split
  · rename_i hb
    have hbnil : b = [] := List.isEmpty_iff.mp hb
    subst hbnil
    rfl
  · split
    · rename_i hpart
      have hfil : b.filter (isNewParticipant cfg s.lastSegmentStart)
          = [] := by
        rw [← h1]
        exact List.isEmpty_iff.mp hpart
      have hLnil : (b.filterMap (participantStart cfg)).filter
          (fun x => decide (s.lastSegmentStart < x)) = [] := by
        rw [← hfilter, hfil]
        rfl
      show s.lastSegmentStart = _
      rw [hRHS, hLnil]
      rfl
    · rename_i hpart
      have hfilne : b.filter (isNewParticipant cfg s.lastSegmentStart)
          ≠ [] := by
        intro hnil
        apply hpart
        rw [h1, hnil]
        rfl
      have hLne : (b.filterMap (participantStart cfg)).filter
          (fun x => decide (s.lastSegmentStart < x)) ≠ [] := by
        intro hnil
        apply hfilne
        rw [← hfilter] at hnil
        exact List.map_eq_nil.mp hnil
      have hswap : ((b.filterMap (participantStart cfg)).filter
            (fun x => decide (s.lastSegmentStart < x))).foldl max
            s.lastUtteranceStart
          = ((b.filterMap (participantStart cfg)).filter
            (fun x => decide (s.lastSegmentStart < x))).foldl max
            s.lastSegmentStart :=
        foldl_max_base_swap _ _ _
          (fun x hx => le_trans hinv (le_of_lt (hLmem x hx)))
          (fun x hx => le_of_lt (hLmem x hx)) hLne
      rw [hswap] at h2
      have hMgt : s.lastSegmentStart
          < ((b.filterMap (participantStart cfg)).filter
              (fun x => decide (s.lastSegmentStart < x))).foldl max
              s.lastSegmentStart := by
        cases hLcase : (b.filterMap (participantStart cfg)).filter
            (fun x => decide (s.lastSegmentStart < x)) with
        | nil => exact absurd hLcase hLne
        | cons y t =>
          have hy : y ∈ (b.filterMap (participantStart cfg)).filter
              (fun x => decide (s.lastSegmentStart < x)) := by
            rw [hLcase]
            exact List.mem_cons_self y t
          exact lt_of_lt_of_le (hLmem y hy)
            (mem_le_foldl_max (y :: t) s.lastSegmentStart y
              (List.mem_cons_self y t))
      have hadded : (b.foldl (segLoopStep cfg s.lastSegmentStart)
          ⟨[], [], s.lastUtteranceStart, false,
            s.processedSegments⟩).newParticipantAdded = true := by
        rw [h3]
        simp [List.isEmpty_iff, hfilne]
      have hcond : (b.foldl (segLoopStep cfg s.lastSegmentStart)
            ⟨[], [], s.lastUtteranceStart, false,
              s.processedSegments⟩).newParticipantAdded = true
          ∧ s.lastSegmentStart
            < (b.foldl (segLoopStep cfg s.lastSegmentStart)
              ⟨[], [], s.lastUtteranceStart, false,
                s.processedSegments⟩).latestStart := by
        refine ⟨hadded, ?_⟩
        rw [h2]
        exact hMgt
      repeat' split
      all_goals rw [h2, hRHS]

/-- The watermark after a whole run of batches equals the maximum of
the initial watermark and every participant start offset seen. -/
theorem runBatches_watermark (cfg : ClientConfig)
    (bs : List (List Segment)) : ∀ s : ClientState,
    s.isJoined = true → s.lastUtteranceStart ≤ s.lastSegmentStart →
    (runBatches cfg s bs).lastSegmentStart
      = ((bs.join).filterMap (participantStart cfg)).foldl max
          s.lastSegmentStart := by
  induction bs with
  | nil => intro s _ _; rfl
  | cons b rest ih =>
    intro s hj hinv
    have hfix := utteranceUpdate_fixed_fields cfg s b
    have hj2 : (utteranceUpdate cfg s b).state.isJoined = true := by
      rw [hfix.1]; exact hj
    have hinv2 : (utteranceUpdate cfg s b).state.lastUtteranceStart
        ≤ (utteranceUpdate cfg s b).state.lastSegmentStart := by
      rw [hfix.2]
      exact le_trans hinv (utteranceUpdate_watermark_mono cfg s b)
    show (runBatches cfg (utteranceUpdate cfg s b).state rest).lastSegmentStart = _
    rw [ih (utteranceUpdate cfg s b).state hj2 hinv2,
      utteranceUpdate_watermark cfg s b hj hinv]
    simp [List.filterMap_append, List.foldl_append]

/-- C2: in a finalized pending buffer, after sorting by start offset,
two adjacent segments of the same speaker with gap (next start minus
current end) at most 2.0 merge into one segment with space-concatenated
text and the later end offset; a gap above 2.0, or a different speaker,
yields two separate segments. In particular Alice "hello" 0.0-1.0 and
Alice "there" 1.2-2.0 merge into "hello there", while Bob "hi"
10.0-10.5 stays separate. -/
theorem C2_adjacent_same_speaker_merge
    (sp1 sp2 t1 t2 : String) (r1 r2 : Option String)
    (a e1 b e2 : Rat) (hab : a ≤ b) :
    (sp1 = sp2 → b - e1 ≤ 2 → t1 ≠ "" → t2 ≠ "" →
      compactSegments
        [⟨some sp1, r1, some t1, some a, some e1⟩,
         ⟨some sp2, r2, some t2, some b, some e2⟩]
      = [⟨some sp1, r1, some (t1 ++ " " ++ t2), some a, some e2⟩])
    ∧ ((sp1 ≠ sp2 ∨ 2 < b - e1) →
      compactSegments
        [⟨some sp1, r1, some t1, some a, some e1⟩,
         ⟨some sp2, r2, some t2, some b, some e2⟩]
      = [⟨some sp1, r1, some t1, some a, some e1⟩,
         ⟨some sp2, r2, some t2, some b, some e2⟩])
    ∧ compactSegments
        [⟨some "Alice", some "participant", some "hello", some 0, some 1⟩,
         ⟨some "Alice", some "participant", some "there",
          some (Rat.divInt 6 5), some 2⟩,
         ⟨some "Bob", some "participant", some "hi", some 10,
          some (Rat.divInt 21 2)⟩]
      = [⟨some "Alice", some "participant", some "hello there",
          some 0, some 2⟩,
         ⟨some "Bob", some "participant", some "hi", some 10,
          some (Rat.divInt 21 2)⟩] := by
  have hba : ¬ (b < a) := not_lt.mpr hab
  refine ⟨?_, ?_, ?_⟩
  · intro hsp hgap ht1 ht2
    subst hsp
    have hgap2 : b ≤ 2 + e1 := by linarith
    simp [compactSegments, sortSegments, insertSorted, segLess, canMerge,
      mergeSegs, hba, hgap2, ht1, ht2]
  · intro hcase
    rcases hcase with hsp | hgap
    · simp [compactSegments, sortSegments, insertSorted, segLess, canMerge,
        hba, hsp]
    · have hgap2 : ¬ (b ≤ 2 + e1) := by linarith
      simp [compactSegments, sortSegments, insertSorted, segLess, canMerge,
        hba, hgap2]
  · decide

/-- Witness for `C2_adjacent_same_speaker_merge` at concrete inputs:
the merge case at gap 0.2 and the no-merge case at gap 8. -/
theorem C2_witness :
    compactSegments
      [⟨some "Alice", none, some "hello", some 0, some 1⟩,
       ⟨some "Alice", none, some "there", some (Rat.divInt 6 5), some 2⟩]
    = [⟨some "Alice", none, some "hello there", some 0, some 2⟩]
    ∧ compactSegments
      [⟨some "Alice", none, some "hello", some 0, some 2⟩,
       ⟨some "Bob", none, some "hi", some 10, some (Rat.divInt 21 2)⟩]
    = [⟨some "Alice", none, some "hello", some 0, some 2⟩,
       ⟨some "Bob", none, some "hi", some 10, some (Rat.divInt 21 2)⟩] := by
  constructor
  · exact (C2_adjacent_same_speaker_merge "Alice" "Alice" "hello" "there"
      none none 0 1 (Rat.divInt 6 5) 2 (by decide)).1 rfl (by decide)
      (by decide) (by decide)
  · exact (C2_adjacent_same_speaker_merge "Alice" "Bob" "hello" "hi"
      none none 0 2 10 (Rat.divInt 21 2) (by decide)).2.1
      (Or.inl (by decide))

/-- C3: while an agent is joined, a participant segment whose start
offset is at or below the watermark `lastSegmentStart` is never
appended to the pending buffer — one call appends exactly the batch
segments that are participant-classified and strictly above the
watermark (first conjunct, stated for every joined state, hence for
every state reachable in a run); after a run of batches the watermark
equals the maximum of its initial value and every participant start
offset seen (second conjunct); and the watermark is monotonically
non-decreasing (third conjunct). The hypothesis
`lastUtteranceStart ≤ lastSegmentStart` holds in every reachable
state: both fields are initialized to 0, `utteranceUpdate` keeps
`lastUtteranceStart` and never lowers `lastSegmentStart`, and the
debounce callback stores a captured value that was at most the
watermark when the timer was armed. -/
theorem C3_watermark_monotone (cfg : ClientConfig) (s : ClientState)
    (bs : List (List Segment))
    (hj : s.isJoined = true)
    (hinv : s.lastUtteranceStart ≤ s.lastSegmentStart) :
    (∀ s2 : ClientState, ∀ b : List Segment, s2.isJoined = true →
      (utteranceUpdate cfg s2 b).state.pendingSegments
        = s2.pendingSegments
          ++ b.filter (isNewParticipant cfg s2.lastSegmentStart))
    ∧ (runBatches cfg s bs).lastSegmentStart
        = ((bs.join).filterMap (participantStart cfg)).foldl max
            s.lastSegmentStart
    ∧ s.lastSegmentStart ≤ (runBatches cfg s bs).lastSegmentStart := by
  refine ⟨fun s2 b hj2 => utteranceUpdate_pending cfg s2 b hj2,
    runBatches_watermark cfg bs s hj hinv, ?_⟩
  rw [runBatches_watermark cfg bs s hj hinv]
  exact base_le_foldl_max _ _

/-- Witness for `C3_watermark_monotone`: a joined client at watermark 0
processing two batches, the second of which re-delivers the first
segment. -/
theorem C3_witness :
    ((utteranceUpdate ⟨"Agent", false⟩ ⟨true, 0, 0, [], [], [], none⟩
        [⟨some "Alice", some "participant", some "hi", some 1, some 2⟩]).state.pendingSegments
      = (⟨true, 0, 0, [], [], [], none⟩ : ClientState).pendingSegments
        ++ [⟨some "Alice", some "participant", some "hi", some 1, some 2⟩].filter
            (isNewParticipant ⟨"Agent", false⟩ 0))
    ∧ (runBatches ⟨"Agent", false⟩ ⟨true, 0, 0, [], [], [], none⟩
        [[⟨some "Alice", some "participant", some "hi", some 1, some 2⟩],
         [⟨some "Alice", some "participant", some "hi", some 1, some 2⟩,
          ⟨some "Alice", some "participant", some "yo", some 3, some 4⟩]]).lastSegmentStart
      = (([[⟨some "Alice", some "participant", some "hi", some 1, some 2⟩],
          [⟨some "Alice", some "participant", some "hi", some 1, some 2⟩,
           ⟨some "Alice", some "participant", some "yo", some 3, some 4⟩]] :
            List (List Segment)).join.filterMap
          (participantStart ⟨"Agent", false⟩)).foldl max 0
    ∧ (0 : Rat) ≤ (runBatches ⟨"Agent", false⟩ ⟨true, 0, 0, [], [], [], none⟩
        [[⟨some "Alice", some "participant", some "hi", some 1, some 2⟩],
         [⟨some "Alice", some "participant", some "hi", some 1, some 2⟩,
          ⟨some "Alice", some "participant", some "yo", some 3, some 4⟩]]).lastSegmentStart := by
  have h := C3_watermark_monotone ⟨"Agent", false⟩
    ⟨true, 0, 0, [], [], [], none⟩
    [[⟨some "Alice", some "participant", some "hi", some 1, some 2⟩],
     [⟨some "Alice", some "participant", some "hi", some 1, some 2⟩,
      ⟨some "Alice", some "participant", some "yo", some 3, some 4⟩]]
    rfl (le_refl 0)
  exact ⟨h.1 ⟨true, 0, 0, [], [], [], none⟩
    [⟨some "Alice", some "participant", some "hi", some 1, some 2⟩] rfl,
    h.2.1, h.2.2⟩

/-- C4 counterexample: the claim asserts that arbitrary duplication —
including "the same segment re-delivered within one batch" — never
produces duplicated text inside an emitted utterance. But the watermark
filter of `utteranceUpdate` compares each segment against the
`lastSegmentStart` value fixed at batch entry, so a segment duplicated
inside one batch is appended twice, and finalization merges the two
copies into an utterance with the text duplicated: "hi hi" instead of
"hi". -/
theorem C4_counterexample :
    ((utteranceUpdate ⟨"TestAgent", false⟩ ⟨true, 0, 0, [], [], [], none⟩
        [⟨some "Alice", some "participant", some "hi", some 1, some 2⟩,
         ⟨some "Alice", some "participant", some "hi", some 1, some 2⟩]).state.pendingSegments
      = [⟨some "Alice", some "participant", some "hi", some 1, some 2⟩,
         ⟨some "Alice", some "participant", some "hi", some 1, some 2⟩])
    ∧ (processConsolidatedUtterance
        (utteranceUpdate ⟨"TestAgent", false⟩ ⟨true, 0, 0, [], [], [], none⟩
          [⟨some "Alice", some "participant", some "hi", some 1, some 2⟩,
           ⟨some "Alice", some "participant", some "hi", some 1, some 2⟩]).state
        1).2
      = some [⟨some "Alice", some "participant", some "hi hi", some 1,
          some 2⟩] := by
  decide

/-- A batch in which every segment is skipped by the loop leaves the
accumulator untouched. -/
theorem segLoop_skip (cfg : ClientConfig) (w : Rat) :
    ∀ (b : List Segment) (acc : LoopAcc),
    (∀ seg ∈ b, ∀ v : Rat, seg.start = some v →
      (if isAgentSpeaker cfg seg = true
       then hasProcessedSegment acc.processed (seg.text.getD "") = true
       else v ≤ w)) →
    b.foldl (segLoopStep cfg w) acc = acc := by
  intro b
  induction b with
  | nil => intro acc _; rfl
  | cons seg rest ih =>
    intro acc h
    have hstep : segLoopStep cfg w acc seg = acc := by
      cases hstart : seg.start with
      | none => simp [segLoopStep, hstart]
      | some v =>
        have hv := h seg (List.mem_cons_self seg rest) v hstart
        by_cases hag : isAgentSpeaker cfg seg = true
        · rw [if_pos hag] at hv
          simp [segLoopStep, hstart, hag, hv]
        · rw [if_neg hag] at hv
          have hag2 : isAgentSpeaker cfg seg = false := by simpa using hag
          simp [segLoopStep, hstart, hag2, hv]
    rw [List.foldl_cons, hstep]
    exact ih acc (fun s2 hs v hv => h s2 (List.mem_cons_of_mem seg hs) v hv)

/-- A batch consisting entirely of already-delivered segments leaves
the client state unchanged and forwards nothing. -/
theorem utteranceUpdate_stale_noop (cfg : ClientConfig) (s : ClientState)
    (b : List Segment)
    (h : ∀ seg ∈ b, ∀ v : Rat, seg.start = some v →
      (if isAgentSpeaker cfg seg = true
       then hasProcessedSegment s.processedSegments (seg.text.getD "") = true
       else v ≤ s.lastSegmentStart)) :
    utteranceUpdate cfg s b = ⟨s, [], []⟩ := by
  have hfold := segLoop_skip cfg s.lastSegmentStart b
    ⟨[], [], s.lastUtteranceStart, false, s.processedSegments⟩ h
  unfold utteranceUpdate
  rw [hfold]
  split
  · rfl
  · split
    · rfl
    · rfl

/-- C4, amended: re-delivery across batches is idempotent — a batch
consisting entirely of already-delivered segments (participant segments
at or below the watermark, agent-voice segments whose normalized text
is already processed) leaves the client state bit-for-bit unchanged and
forwards nothing, so no additional emission can result. (Duplication of
a segment inside a single batch, by contrast, is what the
counterexample exhibits: both copies are appended.) -/
theorem C4_stale_batch_noop (cfg : ClientConfig) (s : ClientState)
    (b : List Segment)
    (h : ∀ seg ∈ b, ∀ v : Rat, seg.start = some v →
      (if isAgentSpeaker cfg seg = true
       then hasProcessedSegment s.processedSegments (seg.text.getD "") = true
       else v ≤ s.lastSegmentStart)) :
    utteranceUpdate cfg s b = ⟨s, [], []⟩ :=
  utteranceUpdate_stale_noop cfg s b h

/-- Witness for `C4_stale_batch_noop`: a client at watermark 5 that
already processed the agent reply "seen reply" receives a batch
re-delivering a participant segment at start 5 and the agent reply;
nothing changes. -/
theorem C4_witness :
    utteranceUpdate ⟨"TestAgent", false⟩
      ⟨true, 0, 5,
        [⟨some "Alice", some "participant", some "old", some 5, some 6⟩],
        ["seen reply"], [], none⟩
      [⟨some "Alice", some "participant", some "old", some 5, some 6⟩,
       ⟨some "Bot", some "assistant", some "Seen Reply", some 7, some 8⟩]
    = ⟨⟨true, 0, 5,
        [⟨some "Alice", some "participant", some "old", some 5, some 6⟩],
        ["seen reply"], [], none⟩, [], []⟩ :=
  C4_stale_batch_noop ⟨"TestAgent", false⟩
    ⟨true, 0, 5,
      [⟨some "Alice", some "participant", some "old", some 5, some 6⟩],
      ["seen reply"], [], none⟩
    [⟨some "Alice", some "participant", some "old", some 5, some 6⟩,
     ⟨some "Bot", some "assistant", some "Seen Reply", some 7, some 8⟩]
    (by decide)

theorem mem_mapInsert (ps : List String) (n : String) :
    n ∈ mapInsert ps n := by
  unfold mapInsert
  split
  · assumption
  · simp

theorem mem_markSegmentProcessed (ps : List String) (t : String) :
    normalizeText t ∈ markSegmentProcessed ps t := by
  show normalizeText t ∈
    (if (mapInsert ps (normalizeText t)).length > 100
     then [normalizeText t] else mapInsert ps (normalizeText t))
  split
  · simp
  · exact mem_mapInsert ps (normalizeText t)


theorem mem_handleAssistantSegments_self (ps : List String)
    (seg : Segment)
    (h : normalizeText (seg.text.getD "") ∈ ps) :
    normalizeText (seg.text.getD "") ∈ handleAssistantSegments ps [seg] := by
  unfold handleAssistantSegments
  cases htext : seg.text with
  | none =>
    simpa [htext] using h
  | some t2 =>
    simp only [List.foldl_cons, List.foldl_nil, htext]
    split
    · exact mem_markSegmentProcessed ps t2
    · simpa [htext] using h

/-- C5: an agent-voice segment whose normalized text is already
recorded as processed is dropped outright — the whole update is a
no-op and nothing is forwarded (first conjunct); an unseen agent-voice
text is recorded as seen and discarded — it never reaches the pending
buffer that feeds utterance consumers (second conjunct); an agent-voice
segment is never classified as a new participant segment for any
watermark (third conjunct); and the seen-history is bounded by 100
entries, being reset to the single new entry whenever an insertion
would exceed the cap (remaining conjuncts). -/
theorem C5_agent_voice_dedup (cfg : ClientConfig) (s : ClientState)
    (seg : Segment) (v : Rat) (ps : List String) (t : String)
    (hstart : seg.start = some v)
    (hagent : isAgentSpeaker cfg seg = true) :
    (hasProcessedSegment s.processedSegments (seg.text.getD "") = true →
      utteranceUpdate cfg s [seg] = ⟨s, [], []⟩)
    ∧ (s.isJoined = true →
       hasProcessedSegment s.processedSegments (seg.text.getD "") = false →
        (utteranceUpdate cfg s [seg]).participantSegments = []
        ∧ (utteranceUpdate cfg s [seg]).state.pendingSegments
            = s.pendingSegments
        ∧ normalizeText (seg.text.getD "")
            ∈ (utteranceUpdate cfg s [seg]).state.processedSegments)
    ∧ (∀ w : Rat, isNewParticipant cfg w seg = false)
    ∧ (markSegmentProcessed ps t).length ≤ 100
    ∧ ((mapInsert ps (normalizeText t)).length > 100 →
        markSegmentProcessed ps t = [normalizeText t]) := by
  refine ⟨?_, ?_, ?_, ?_, ?_⟩
  · intro hseen
    apply utteranceUpdate_stale_noop
    intro seg2 hmem v2 hstart2
    have : seg2 = seg := List.mem_singleton.mp hmem
    subst this
    rw [if_pos hagent]
    exact hseen
  · intro hj hseen
    have hacc : List.foldl (segLoopStep cfg s.lastSegmentStart)
        ⟨[], [], s.lastUtteranceStart, false, s.processedSegments⟩ [seg]
        = ⟨[], [seg], s.lastUtteranceStart, false,
            markSegmentProcessed s.processedSegments (seg.text.getD "")⟩ := by
      simp [segLoopStep, hstart, hagent, hseen]
    have hresult : utteranceUpdate cfg s [seg]
        = ⟨{ s with processedSegments := handleAssistantSegments (markSegmentProcessed s.processedSegments (seg.text.getD "")) [seg] }, [], [seg]⟩ := by
      unfold utteranceUpdate
      rw [hacc]
      simp only [hj, Bool.not_true, Bool.false_eq_true, if_false]
      rfl
    rw [hresult]
    exact ⟨rfl, rfl,
      mem_handleAssistantSegments_self _ seg
        (mem_markSegmentProcessed s.processedSegments (seg.text.getD ""))⟩
  · intro w
    simp [isNewParticipant, hagent]
  · show (markSegmentProcessed ps t).length ≤ 100
    show (if (mapInsert ps (normalizeText t)).length > 100
      then [normalizeText t]
      else mapInsert ps (normalizeText t)).length ≤ 100
    split
    · simp
    · rename_i h100
      exact Nat.le_of_not_lt h100
  · intro h100
    show (if (mapInsert ps (normalizeText t)).length > 100
      then [normalizeText t]
      else mapInsert ps (normalizeText t)) = [normalizeText t]
    rw [if_pos h100]

/-- Witness for `C5_agent_voice_dedup`: a client that already processed
the normalized text "hello" drops the agent segment " Hello " outright;
a fresh client records it; the seen-history operations respect the
cap. -/
theorem C5_witness :
    (utteranceUpdate ⟨"TestAgent", false⟩
        ⟨true, 0, 0, [], ["hello"], [], none⟩
        [⟨some "Bot", some "assistant", some " Hello ", some 1, some 2⟩]
      = ⟨⟨true, 0, 0, [], ["hello"], [], none⟩, [], []⟩)
    ∧ normalizeText " Hello "
        ∈ (utteranceUpdate ⟨"TestAgent", false⟩
            ⟨true, 0, 0, [], [], [], none⟩
            [⟨some "Bot", some "assistant", some " Hello ", some 1,
              some 2⟩]).state.processedSegments
    ∧ (markSegmentProcessed ["a"] "B").length ≤ 100 := by
  refine ⟨?_, ?_, ?_⟩
  · exact (C5_agent_voice_dedup ⟨"TestAgent", false⟩
      ⟨true, 0, 0, [], ["hello"], [], none⟩
      ⟨some "Bot", some "assistant", some " Hello ", some 1, some 2⟩
      1 ["a"] "B" rfl (by decide)).1 (by decide)
  · exact (((C5_agent_voice_dedup ⟨"TestAgent", false⟩
      ⟨true, 0, 0, [], [], [], none⟩
      ⟨some "Bot", some "assistant", some " Hello ", some 1, some 2⟩
      1 ["a"] "B" rfl (by decide)).2.1 rfl (by decide)).2.2)
  · exact (C5_agent_voice_dedup ⟨"TestAgent", false⟩
      ⟨true, 0, 0, [], ["hello"], [], none⟩
      ⟨some "Bot", some "assistant", some " Hello ", some 1, some 2⟩
      1 ["a"] "B" rfl (by decide)).2.2.2.1


/-- C6: with the manager running, a create call at or above the
configured capacity returns the capacity error naming the limit and
leaves the entire manager state — agent map, meeting map, log buffers —
unchanged; below the capacity it succeeds. -/
theorem C6_capacity_limit (m : ManagerState) (config : AgentConfig)
    (agentID : String) (hrun : m.running = true) :
    (m.agents.length ≥ m.maxAgents →
      CreateAgent m config agentID
        = (m, Except.error ("maximum number of agents ("
            ++ toString m.maxAgents ++ ") reached")))
    ∧ (m.agents.length < m.maxAgents →
      ∃ a : Agent, (CreateAgent m config agentID).2 = Except.ok a) := by
  constructor
  · intro hcap
    unfold CreateAgent
    rw [hrun]
    simp only [Bool.not_true, Bool.false_eq_true, if_false, if_pos hcap]
  · intro hlt
    unfold CreateAgent
    rw [hrun]
    simp only [Bool.not_true, Bool.false_eq_true, if_false,
      if_neg (not_le.mpr hlt)]
    exact ⟨_, rfl⟩

/-- Witness for `C6_capacity_limit`: a manager with capacity 1 holding
one agent rejects a second create and leaves the state unchanged; with
capacity 2 the same create succeeds. -/
theorem C6_witness :
    CreateAgent
      ⟨true, 1, 1000,
        [("agent_a", ⟨"agent_a", ⟨"url", "Bot"⟩, AgentStatus.created, [],
          none⟩)], [], [("agent_a", [])], []⟩
      ⟨"url", "Bot"⟩ "agent_b"
    = (⟨true, 1, 1000,
        [("agent_a", ⟨"agent_a", ⟨"url", "Bot"⟩, AgentStatus.created, [],
          none⟩)], [], [("agent_a", [])], []⟩,
       Except.error "maximum number of agents (1) reached")
    ∧ ∃ a : Agent,
      (CreateAgent
        ⟨true, 2, 1000,
          [("agent_a", ⟨"agent_a", ⟨"url", "Bot"⟩, AgentStatus.created, [],
            none⟩)], [], [("agent_a", [])], []⟩
        ⟨"url", "Bot"⟩ "agent_b").2 = Except.ok a := by
  constructor
  · exact (C6_capacity_limit
      ⟨true, 1, 1000,
        [("agent_a", ⟨"agent_a", ⟨"url", "Bot"⟩, AgentStatus.created, [],
          none⟩)], [], [("agent_a", [])], []⟩
      ⟨"url", "Bot"⟩ "agent_b" rfl).1 (by decide)
  · exact (C6_capacity_limit
      ⟨true, 2, 1000,
        [("agent_a", ⟨"agent_a", ⟨"url", "Bot"⟩, AgentStatus.created, [],
          none⟩)], [], [("agent_a", [])], []⟩
      ⟨"url", "Bot"⟩ "agent_b" rfl).2 (by decide)

/-- C7 (code defect, evaluated at a failing input): every call site of
the choke point first assigns `agent.Status` directly
(agent_lifecycle.go lines 128, 199, 249, 271; websocket.go line 47), so
`updateAgentStatusUnsafe` finds the new value already stored and its
change detection suppresses the broadcast. Starting and then stopping
an agent in status `created` therefore emits NO status event at all —
the claim, the spec and the doc comment of `updateAgentStatus`
("updates an agent status and broadcasts it") require one broadcast per
transition. The final conjunct shows the choke point alone, called
without the preceding direct write, does broadcast exactly once. -/
theorem C7_status_broadcast_bug :
    (startAgentStatusWrites
        ⟨true, 10, 1000,
          [("a", ⟨"a", ⟨"url", "Bot"⟩, AgentStatus.created, [], none⟩)],
          [], [("a", [])], []⟩ "a").events = []
    ∧ (lookupA (startAgentStatusWrites
        ⟨true, 10, 1000,
          [("a", ⟨"a", ⟨"url", "Bot"⟩, AgentStatus.created, [], none⟩)],
          [], [("a", [])], []⟩ "a").agents "a").map Agent.status
      = some AgentStatus.running
    ∧ (stopAgentStatusWrites (startAgentStatusWrites
        ⟨true, 10, 1000,
          [("a", ⟨"a", ⟨"url", "Bot"⟩, AgentStatus.created, [], none⟩)],
          [], [("a", [])], []⟩ "a") "a").events = []
    ∧ (lookupA (stopAgentStatusWrites (startAgentStatusWrites
        ⟨true, 10, 1000,
          [("a", ⟨"a", ⟨"url", "Bot"⟩, AgentStatus.created, [], none⟩)],
          [], [("a", [])], []⟩ "a") "a").agents "a").map Agent.status
      = some AgentStatus.stopped
    ∧ (updateAgentStatusUnsafe
        ⟨true, 10, 1000,
          [("a", ⟨"a", ⟨"url", "Bot"⟩, AgentStatus.created, [], none⟩)],
          [], [("a", [])], []⟩ "a" AgentStatus.starting).events
      = [("a", AgentStatus.starting)] := by
  decide


/-- C10: `GetAgentLogs` returns the most recent `min(n, length)`
entries in order, where `n` is the request when `0 < lines ≤ 1000`,
200 when `lines ≤ 0`, and 1000 when the request exceeds the buffer
size; an id with no log buffer yields the "agent not found" error and
no entries. (The returned slice is a fresh copy in the Go code; under
the value semantics of the embedding this aliasing concern is
trivial.) -/
theorem C10_get_agent_logs (m : ManagerState) (agentID : String)
    (lines : Int) (logs : List LogEntry)
    (hbuf : m.logBufferSize = 1000) :
    (lookupA m.logBuffers agentID = none →
      GetAgentLogs m agentID lines = Except.error "agent not found")
    ∧ (lookupA m.logBuffers agentID = some logs →
      GetAgentLogs m agentID lines
        = Except.ok (logs.drop (logs.length
            - min (if lines ≤ 0 then 200
                   else if 1000 < lines then 1000
                   else lines.toNat) logs.length))
      ∧ (logs.drop (logs.length
            - min (if lines ≤ 0 then 200
                   else if 1000 < lines then 1000
                   else lines.toNat) logs.length)).length
          = min (if lines ≤ 0 then 200
                 else if 1000 < lines then 1000
                 else lines.toNat) logs.length) := by
  constructor
  · intro hlk
    unfold GetAgentLogs
    rw [hlk]
  · intro hlk
    have harith : ∀ start2 : Int,
        start2 = (let lines1 : Int := if lines ≤ 0 then 200 else lines
          let lines2 : Int := if lines1 > (m.logBufferSize : Int)
            then (m.logBufferSize : Int) else lines1
          let lines3 : Int := if lines2 ≥ (logs.length : Int)
            then (logs.length : Int) else lines2
          let start : Int := (logs.length : Int) - lines3
          if start < 0 then 0 else start) →
        start2.toNat = logs.length
          - min (if lines ≤ 0 then 200
                 else if 1000 < lines then 1000
                 else lines.toNat) logs.length := by
      intro start2 hs
      rw [hbuf] at hs
      dsimp only at hs
      rw [Nat.min_def]
      split_ifs at hs ⊢ <;> omega
    have hdrop := harith _ rfl
    rw [hbuf] at hdrop
    constructor
    · unfold GetAgentLogs
      rw [hlk, hbuf]
      dsimp only
      rw [hdrop]
    · rw [List.length_drop]
      have hle : min (if lines ≤ 0 then 200
          else if 1000 < lines then 1000
          else lines.toNat) logs.length ≤ logs.length :=
        Nat.min_le_right _ _
      omega

/-- Witness for `C10_get_agent_logs`: a buffer of three entries,
queried with the default (`lines = 0`, all three returned), with
`lines = 2` (last two returned), and a missing id. -/
theorem C10_witness :
    GetAgentLogs
      ⟨true, 10, 1000, [],  [],
        [("a", [⟨"info", "one"⟩, ⟨"info", "two"⟩, ⟨"info", "three"⟩])],
        []⟩ "a" 2
      = Except.ok [⟨"info", "two"⟩, ⟨"info", "three"⟩]
    ∧ GetAgentLogs
      ⟨true, 10, 1000, [], [],
        [("a", [⟨"info", "one"⟩, ⟨"info", "two"⟩, ⟨"info", "three"⟩])],
        []⟩ "a" 0
      = Except.ok [⟨"info", "one"⟩, ⟨"info", "two"⟩, ⟨"info", "three"⟩]
    ∧ GetAgentLogs
      ⟨true, 10, 1000, [], [],
        [("a", [⟨"info", "one"⟩, ⟨"info", "two"⟩, ⟨"info", "three"⟩])],
        []⟩ "missing" 5
      = Except.error "agent not found" := by
  refine ⟨?_, ?_, ?_⟩
  · exact ((C10_get_agent_logs
      ⟨true, 10, 1000, [], [],
        [("a", [⟨"info", "one"⟩, ⟨"info", "two"⟩, ⟨"info", "three"⟩])],
        []⟩ "a" 2
      [⟨"info", "one"⟩, ⟨"info", "two"⟩, ⟨"info", "three"⟩] rfl).2
      (by decide)).1
  · exact ((C10_get_agent_logs
      ⟨true, 10, 1000, [], [],
        [("a", [⟨"info", "one"⟩, ⟨"info", "two"⟩, ⟨"info", "three"⟩])],
        []⟩ "a" 0
      [⟨"info", "one"⟩, ⟨"info", "two"⟩, ⟨"info", "three"⟩] rfl).2
      (by decide)).1
  · exact (C10_get_agent_logs
      ⟨true, 10, 1000, [], [],
        [("a", [⟨"info", "one"⟩, ⟨"info", "two"⟩, ⟨"info", "three"⟩])],
        []⟩ "missing" 5 [] rfl).1 (by decide)


theorem lookupA_setA_self {α : Type} (m : List (String × α))
    (k : String) (v : α) : lookupA (setA m k v) k = some v := by
  induction m with
  | nil => simp [setA, lookupA]
  | cons p rest ih =>
    rcases p with ⟨k2, v2⟩
    by_cases hk : k2 = k
    · simp [setA, hk, lookupA]
    · simp [setA, hk, lookupA, ih]

theorem setA_setA_self {α : Type} (m : List (String × α))
    (k : String) (v : α) : setA (setA m k v) k v = setA m k v := by
  induction m with
  | nil => simp [setA]
  | cons p rest ih =>
    rcases p with ⟨k2, v2⟩
    by_cases hk : k2 = k
    · simp [setA, hk]
    · simp [setA, hk, ih]

theorem lookupA_removeA_self {α : Type} (m : List (String × α))
    (k : String) : lookupA (removeA m k) k = none := by
  induction m with
  | nil => rfl
  | cons p rest ih =>
    rcases p with ⟨k2, v2⟩
    by_cases hk : k2 = k
    · simpa [removeA, hk, lookupA] using ih
    · simpa [removeA, hk, lookupA] using ih

/-- `dispatchList` keeps exactly the subscribers with room, each with
the message enqueued, and drops exactly the full ones, in order. -/
theorem dispatchList_characterization (msg : WSMessage)
    (l : List HClient) :
    dispatchList msg l
      = ((l.filter hasRoom).map (enqueueMsg msg),
         l.filter (fun c => !hasRoom c)) := by
  induction l with
  | nil => rfl
  | cons c rest ih =>
    by_cases hr : hasRoom c = true
    · simp [dispatchList, hr, ih]
    · have hr2 : hasRoom c = false := by simpa using hr
      simp [dispatchList, hr2, ih]

/-- C8: in the broadcast case of the hub dispatch loop, every
subscriber of the target agent and every session-wide subscriber whose
outbound queue has room receives the message (the surviving registries
are exactly the filter of room-having subscribers with the message
enqueued), while every subscriber with a full queue is dropped: its
send channel is closed and it is removed from `clients` and from its
registry. The dispatch is a structurally recursive fold, so delivery to
the surviving subscribers always completes. -/
theorem C8_full_queue_subscriber_dropped (h : HubState)
    (msg : WSMessage) :
    (∀ l : List HClient, lookupA h.clientsByAgent msg.agentID = some l →
      lookupA (hubBroadcast h msg).clientsByAgent msg.agentID
        = some ((l.filter hasRoom).map (enqueueMsg msg)))
    ∧ (hubBroadcast h msg).sessionClients
        = (h.sessionClients.filter hasRoom).map (enqueueMsg msg)
    ∧ (hubBroadcast h msg).closedSends
        = h.closedSends
          ++ ((((lookupA h.clientsByAgent msg.agentID).getD []).filter
                (fun c => !hasRoom c)
              ++ h.sessionClients.filter (fun c => !hasRoom c)).map
              HClient.id)
    ∧ (hubBroadcast h msg).clients
        = h.clients.filter (fun i =>
            !(((((lookupA h.clientsByAgent msg.agentID).getD []).filter
                  (fun c => !hasRoom c)
                ++ h.sessionClients.filter (fun c => !hasRoom c)).map
                HClient.id).contains i)) := by
  cases hlk : lookupA h.clientsByAgent msg.agentID with
  | none =>
    refine ⟨fun l hl => ?_, ?_, ?_, ?_⟩
    · cases hl
    · simp only [hubBroadcast, hlk, dispatchList_characterization]
    · simp only [hubBroadcast, hlk, dispatchList_characterization]
      simp
    · simp only [hubBroadcast, hlk, dispatchList_characterization]
      simp
  | some l0 =>
    have hmain : lookupA (hubBroadcast h msg).clientsByAgent msg.agentID
        = some ((l0.filter hasRoom).map (enqueueMsg msg)) := by
      simp only [hubBroadcast, hlk, dispatchList_characterization]
      exact lookupA_setA_self _ _ _
    refine ⟨fun l hl => ?_, ?_, ?_, ?_⟩
    · injection hl with he
      rw [← he]
      exact hmain
    · simp only [hubBroadcast, hlk, dispatchList_characterization]
    · simp only [hubBroadcast, hlk, dispatchList_characterization]
      simp
    · simp only [hubBroadcast, hlk, dispatchList_characterization]
      simp

/-- Witness for `C8_full_queue_subscriber_dropped`: agent "a" has one
subscriber with room (id 1) and one with a full queue (id 2, capacity
exhausted); a session subscriber (id 3) has room. Dispatching a message
for agent "a" delivers to 1 and 3, drops 2 and closes its channel. -/
theorem C8_witness :
    lookupA (hubBroadcast
      ⟨[1, 2, 3],
       [("a", [⟨1, "a", false, [], 256⟩, ⟨2, "a", false, [], 0⟩])],
       [⟨3, "", true, [], 256⟩], true, true, [], []⟩
      ⟨"status", "a"⟩).clientsByAgent "a"
      = some (([⟨1, "a", false, [], 256⟩,
          ⟨2, "a", false, [], 0⟩].filter hasRoom).map
          (enqueueMsg ⟨"status", "a"⟩))
    ∧ (hubBroadcast
      ⟨[1, 2, 3],
       [("a", [⟨1, "a", false, [], 256⟩, ⟨2, "a", false, [], 0⟩])],
       [⟨3, "", true, [], 256⟩], true, true, [], []⟩
      ⟨"status", "a"⟩).sessionClients
      = ([(⟨3, "", true, [], 256⟩ : HClient)].filter hasRoom).map
          (enqueueMsg ⟨"status", "a"⟩) := by
  have h := C8_full_queue_subscriber_dropped
    ⟨[1, 2, 3],
     [("a", [⟨1, "a", false, [], 256⟩, ⟨2, "a", false, [], 0⟩])],
     [⟨3, "", true, [], 256⟩], true, true, [], []⟩
    ⟨"status", "a"⟩
  exact ⟨h.1 [⟨1, "a", false, [], 256⟩, ⟨2, "a", false, [], 0⟩] rfl,
    h.2.1⟩


theorem mem_insertId (l : List Nat) (i : Nat) : i ∈ insertId l i := by
  unfold insertId
  split
  · assumption
  · simp

theorem insertId_idem (l : List Nat) (i : Nat) :
    insertId (insertId l i) i = insertId l i := by
  show (if i ∈ insertId l i then insertId l i else insertId l i ++ [i])
    = insertId l i
  rw [if_pos (mem_insertId l i)]

theorem insertClient_any (l : List HClient) (c : HClient) :
    (insertClient l c).any (fun c2 => c2.id = c.id) = true := by
  unfold insertClient
  split
  · assumption
  · simp

theorem insertClient_idem (l : List HClient) (c : HClient) :
    insertClient (insertClient l c) c = insertClient l c := by
  show (if (insertClient l c).any (fun c2 => c2.id = c.id)
      then insertClient l c else insertClient l c ++ [c]) = insertClient l c
  rw [if_pos (insertClient_any l c)]

theorem removeClient_idem (l : List HClient) (c : HClient) :
    removeClient (removeClient l c) c = removeClient l c := by
  unfold removeClient
  rw [List.filter_filter]
  simp

/-- C9 counterexample: the claim says registration on a stopped hub is
a safe no-op that neither panics nor changes hub state. But `Stop`
closes the `register` channel, and the send `h.register <- client`
performed by `ServeWs` on a closed channel panics in Go — modelled by
`sendRegister` returning `none` instead of an unchanged hub. -/
theorem C9_counterexample :
    sendRegister (hubStop ⟨[], [], [], true, true, [], []⟩)
        ⟨1, "a", false, [], 256⟩ = none
    ∧ sendUnregister (hubStop ⟨[], [], [], true, true, [], []⟩)
        ⟨1, "a", false, [], 256⟩ = none := by
  decide

/-- C9, amended: after the hub has stopped, a registration or
unregistration send panics on the closed channel rather than being a
safe no-op (first conjunct); the run-loop handling of registration and
unregistration IS idempotent: handling the same client twice equals
handling it once, and the second unregistration does not re-close the
send channel thanks to the membership guard (remaining conjuncts). -/
theorem C9_register_after_stop (h : HubState) (c : HClient)
    (hstopped : h.regOpen = false) :
    sendRegister h c = none
    ∧ sendUnregister h c = none
    ∧ (∀ h2 : HubState, ∀ c2 : HClient,
        registerClient (registerClient h2 c2) c2 = registerClient h2 c2)
    ∧ (∀ h2 : HubState, ∀ c2 : HClient,
        unregisterClient (unregisterClient h2 c2) c2
          = unregisterClient h2 c2) := by
  refine ⟨by simp [sendRegister, hstopped], by simp [sendUnregister, hstopped],
    ?_, ?_⟩
  · intro h2 c2
    unfold registerClient
    by_cases hsess : c2.isSession = true
    · simp [hsess, insertId_idem, insertClient_idem]
    · have hsess2 : c2.isSession = false := by simpa using hsess
      simp [hsess2, insertId_idem, lookupA_setA_self, insertClient_idem,
        setA_setA_self]
  · intro h2 c2
    unfold unregisterClient
    by_cases hmem : c2.id ∈ h2.clients
    · simp only [hmem, if_true]
      have hnm : c2.id ∉ h2.clients.filter (fun i => i ≠ c2.id) := by
        simp
      by_cases hsess : c2.isSession = true
      · simp [hsess, hnm, removeClient_idem]
      · have hsess2 : c2.isSession = false := by simpa using hsess
        simp only [hsess2, Bool.false_eq_true, if_false]
        cases hlk : lookupA h2.clientsByAgent c2.agentID with
        | none =>
          simp [hnm, hlk]
        | some l =>
          by_cases hl2 : (removeClient l c2).isEmpty = true
          · simp [hlk, hl2, hnm, lookupA_removeA_self]
          · simp [hlk, hl2, hnm, lookupA_setA_self, removeClient_idem,
              setA_setA_self]
    · simp only [hmem, if_false]
      by_cases hsess : c2.isSession = true
      · simp [hsess, hmem, removeClient_idem]
      · have hsess2 : c2.isSession = false := by simpa using hsess
        simp only [hsess2, Bool.false_eq_true, if_false]
        cases hlk : lookupA h2.clientsByAgent c2.agentID with
        | none =>
          simp [hmem, hlk]
        | some l =>
          by_cases hl2 : (removeClient l c2).isEmpty = true
          · simp [hlk, hl2, hmem, lookupA_removeA_self]
          · simp [hlk, hl2, hmem, lookupA_setA_self, removeClient_idem,
              setA_setA_self]

/-- Witness for `C9_register_after_stop` at a concrete stopped hub and
client. -/
theorem C9_witness :
    sendRegister (hubStop ⟨[2], [], [⟨2, "", true, [], 256⟩], true, true,
        [], []⟩) ⟨1, "a", false, [], 256⟩ = none
    ∧ registerClient
        (registerClient
          (hubStop ⟨[2], [], [⟨2, "", true, [], 256⟩], true, true, [], []⟩)
          ⟨1, "a", false, [], 256⟩)
        ⟨1, "a", false, [], 256⟩
      = registerClient
          (hubStop ⟨[2], [], [⟨2, "", true, [], 256⟩], true, true, [], []⟩)
          ⟨1, "a", false, [], 256⟩ := by
  have h := C9_register_after_stop
    (hubStop ⟨[2], [], [⟨2, "", true, [], 256⟩], true, true, [], []⟩)
    ⟨1, "a", false, [], 256⟩ (by decide)
  exact ⟨h.1,
    h.2.2.1 (hubStop ⟨[2], [], [⟨2, "", true, [], 256⟩], true, true, [], []⟩)
      ⟨1, "a", false, [], 256⟩⟩


theorem runMoves_cons (s : SupState) (mv : Move) (rest : List Move) :
    runMoves s (mv :: rest) = runMoves (applyMove s mv) rest := rfl

/-- A step of the uncancelled task 1 keeps task 2 and the
speak-only-after-finish property. -/
theorem step1_preserves (s : SupState)
    (h2 : s.task1.cancelled = false)
    (h3 : 1 ∈ s.spoken → s.task1.phase = TaskPhase.finished) :
    (applyMove s Move.step1).task2 = s.task2
    ∧ (applyMove s Move.step1).task1.cancelled = false
    ∧ (1 ∈ (applyMove s Move.step1).spoken →
        (applyMove s Move.step1).task1.phase = TaskPhase.finished) := by
  cases hph : s.task1.phase <;>
    refine ⟨rfl, by simp [applyMove, taskStep, hph, h2], ?_⟩ <;>
    simp only [applyMove, taskStep, hph, h2, Bool.false_eq_true, if_false] <;>
    intro hm
  case atEntryCheck =>
    have := h3 hm
    rw [hph] at this
    exact absurd this (by decide)
  case atModeCheck =>
    have := h3 hm
    rw [hph] at this
    exact absurd this (by decide)
  case atPreModelCheck =>
    have := h3 hm
    rw [hph] at this
    exact absurd this (by decide)
  case atPostModelCheck =>
    have := h3 hm
    rw [hph] at this
    exact absurd this (by decide)
  case atSpeak => trivial
  case finished => trivial
  case cancelledReturn =>
    have := h3 hm
    rw [hph] at this
    exact absurd this (by decide)

/-- A step of the cancelled task 1, taken at a checkpoint or after
returning, lands in (or stays at) the cancelled return: it neither
speaks nor reaches the speak step. -/
theorem step1_cancelled (s : SupState)
    (h1 : s.task1.cancelled = true)
    (h2 : atCheckpoint s.task1.phase = true
      ∨ s.task1.phase = TaskPhase.cancelledReturn) :
    (applyMove s Move.step1).task1.cancelled = true
    ∧ (applyMove s Move.step1).task1.phase = TaskPhase.cancelledReturn
    ∧ (applyMove s Move.step1).spoken = s.spoken
    ∧ (applyMove s Move.step1).task2 = s.task2 := by
  have hph := h2
  cases hphase : s.task1.phase <;> rw [hphase] at hph
  case atSpeak => rcases hph with hc | hc <;> simp [atCheckpoint] at hc
  case finished => rcases hph with hc | hc <;> simp [atCheckpoint] at hc
  all_goals exact ⟨by simp [applyMove, taskStep, hphase, h1],
    by simp [applyMove, taskStep, hphase, h1],
    by simp [applyMove, taskStep, hphase, h1], rfl⟩

/-- A step of task 2 never touches task 1 and never adds a reply of
utterance 1. -/
theorem step2_effects (s : SupState) :
    (applyMove s Move.step2).task1 = s.task1
    ∧ (1 ∉ s.spoken → 1 ∉ (applyMove s Move.step2).spoken) := by
  cases h2t : s.task2 with
  | none => simp [applyMove, h2t]
  | some t =>
    constructor
    · cases hph : t.phase <;> simp [applyMove, h2t, taskStep, hph]
    · intro h3
      cases hph : t.phase <;>
        simp only [applyMove, h2t, taskStep, hph] <;>
        first
          | (split <;> simpa using h3)
          | simpa using h3

/-- Before the superseding utterance arrives: no second task exists,
task 1 is uncancelled, and a reply for utterance 1 can only have been
spoken once task 1 finished. -/
theorem runMoves_nosup_inv (moves : List Move)
    (hns : Move.sup ∉ moves) :
    ∀ s : SupState, s.task2 = none → s.task1.cancelled = false →
      (1 ∈ s.spoken → s.task1.phase = TaskPhase.finished) →
      ((runMoves s moves).task2 = none
       ∧ (runMoves s moves).task1.cancelled = false
       ∧ (1 ∈ (runMoves s moves).spoken →
          (runMoves s moves).task1.phase = TaskPhase.finished)) := by
  induction moves with
  | nil => intro s h1 h2 h3; exact ⟨h1, h2, h3⟩
  | cons mv rest ih =>
    intro s h1 h2 h3
    have hns2 : Move.sup ∉ rest := fun hm => hns (List.mem_cons_of_mem mv hm)
    rw [runMoves_cons]
    cases mv with
    | sup => exact absurd (List.mem_cons_self _ _) hns
    | step1 =>
      rcases step1_preserves s h2 h3 with ⟨p1, p2, p3⟩
      exact ih hns2 _ (p1.trans h1) p2 p3
    | step2 =>
      have heq : applyMove s Move.step2 = s := by
        simp [applyMove, h1]
      rw [heq]
      exact ih hns2 s h1 h2 h3

/-- After the cancellation: task 1 stays cancelled, sits at a
checkpoint or has returned through one, and never contributes a spoken
reply. -/
theorem runMoves_postsup_inv (moves : List Move)
    (hns : Move.sup ∉ moves) :
    ∀ s : SupState, s.task1.cancelled = true →
      (atCheckpoint s.task1.phase = true
        ∨ s.task1.phase = TaskPhase.cancelledReturn) →
      1 ∉ s.spoken →
      ((runMoves s moves).task1.cancelled = true
       ∧ (atCheckpoint (runMoves s moves).task1.phase = true
          ∨ (runMoves s moves).task1.phase = TaskPhase.cancelledReturn)
       ∧ 1 ∉ (runMoves s moves).spoken) := by
  induction moves with
  | nil => intro s h1 h2 h3; exact ⟨h1, h2, h3⟩
  | cons mv rest ih =>
    intro s h1 h2 h3
    have hns2 : Move.sup ∉ rest := fun hm => hns (List.mem_cons_of_mem mv hm)
    rw [runMoves_cons]
    cases mv with
    | sup => exact absurd (List.mem_cons_self _ _) hns
    | step1 =>
      rcases step1_cancelled s h1 h2 with ⟨p1, p2, p3, _⟩
      exact ih hns2 _ p1 (Or.inr p2) (p3 ▸ h3)
    | step2 =>
      rcases step2_effects s with ⟨p1, p2⟩
      apply ih hns2
      · rw [p1]; exact h1
      · rw [p1]; exact h2
      · exact p2 h3

/-- C1: in every interleaving in which the second utterance arrives
(the single `sup` move) while the first response task still has a
cancellation checkpoint ahead of it — in particular while it is
awaiting the model call, with the post-model-call checkpoint ahead —
`handleUtterance` cancels the previous token before installing the new
task (first conjunct, which holds definitionally of the `sup` move),
the cancelled task observes the cancellation at its next checkpoint and
returns without ever reaching the speak step (third and fourth
conjuncts), and no reply of the superseded utterance 1 is ever spoken:
only replies of the newest utterance 2 can appear (second conjunct). -/
theorem C1_task_supersession (pre post : List Move)
    (hpre : Move.sup ∉ pre) (hpost : Move.sup ∉ post)
    (hrunning : atCheckpoint (runMoves initSup pre).task1.phase = true) :
    (∀ s : SupState, applyMove s Move.sup = installNewTask (cancelCurrent s))
    ∧ 1 ∉ (runMoves initSup (pre ++ Move.sup :: post)).spoken
    ∧ (runMoves initSup (pre ++ Move.sup :: post)).task1.phase
        ≠ TaskPhase.atSpeak
    ∧ (runMoves initSup (pre ++ Move.sup :: post)).task1.phase
        ≠ TaskPhase.finished := by
  have hpreinv := runMoves_nosup_inv pre hpre initSup rfl rfl
    (fun hm => absurd hm (List.not_mem_nil 1))
  have hnospeak : 1 ∉ (runMoves initSup pre).spoken := by
    intro hm
    have hfin := hpreinv.2.2 hm
    rw [hfin] at hrunning
    exact absurd hrunning (by decide)
  have hsplit : runMoves initSup (pre ++ Move.sup :: post)
      = runMoves (applyMove (runMoves initSup pre) Move.sup) post := by
    unfold runMoves
    rw [List.foldl_append, List.foldl_cons]
  have hsupstate :
      (applyMove (runMoves initSup pre) Move.sup).task1.cancelled = true
      ∧ (applyMove (runMoves initSup pre) Move.sup).task1.phase
          = (runMoves initSup pre).task1.phase
      ∧ (applyMove (runMoves initSup pre) Move.sup).spoken
          = (runMoves initSup pre).spoken := ⟨rfl, rfl, rfl⟩
  have hpost2 := runMoves_postsup_inv post hpost
    (applyMove (runMoves initSup pre) Move.sup)
    hsupstate.1
    (Or.inl (hsupstate.2.1.symm ▸ hrunning))
    (hsupstate.2.2.symm ▸ hnospeak)
  refine ⟨fun s => rfl, ?_, ?_, ?_⟩
  · rw [hsplit]
    exact hpost2.2.2
  · rw [hsplit]
    rcases hpost2.2.1 with hc | hc
    · intro he
      rw [he] at hc
      exact absurd hc (by decide)
    · intro he
      rw [he] at hc
      exact absurd hc (by decide)
  · rw [hsplit]
    rcases hpost2.2.1 with hc | hc
    · intro he
      rw [he] at hc
      exact absurd hc (by decide)
    · intro he
      rw [he] at hc
      exact absurd hc (by decide)

/-- Witness for `C1_task_supersession`: task 1 has passed the pre-model
checkpoint and is awaiting the model call (three scheduler steps) when
utterance 2 supersedes it; afterwards task 1 takes its post-model
checkpoint and returns while task 2 runs to completion — only the reply
of utterance 2 is spoken. -/
theorem C1_witness :
    applyMove initSup Move.sup = installNewTask (cancelCurrent initSup)
    ∧ 1 ∉ (runMoves initSup ([Move.step1, Move.step1, Move.step1]
        ++ Move.sup :: [Move.step1, Move.step2, Move.step2, Move.step2,
          Move.step2, Move.step2])).spoken
    ∧ (runMoves initSup ([Move.step1, Move.step1, Move.step1]
        ++ Move.sup :: [Move.step1, Move.step2, Move.step2, Move.step2,
          Move.step2, Move.step2])).task1.phase ≠ TaskPhase.atSpeak
    ∧ (runMoves initSup ([Move.step1, Move.step1, Move.step1]
        ++ Move.sup :: [Move.step1, Move.step2, Move.step2, Move.step2,
          Move.step2, Move.step2])).task1.phase ≠ TaskPhase.finished := by
  have h := C1_task_supersession [Move.step1, Move.step1, Move.step1]
    [Move.step1, Move.step2, Move.step2, Move.step2, Move.step2, Move.step2]
    (by decide) (by decide) (by decide)
  exact ⟨h.1 initSup, h.2.1, h.2.2.1, h.2.2.2⟩


end Joinly